import Mathlib

/-!
Verification development for the code-chatter backend core:
the background task registry (app/services/background_tasks.py),
the document processing pipeline (app/services/document_processor.py,
app/core/utils.py, app/services/file_processor.py), the upload routing
endpoint (app/api/v1/endpoints/data_processing.py) and the repository
gate (app/services/repository.py), embedded shallowly in Lean.
-/

/- ---------------------------------------------------------------
   Task registry (BackgroundTaskService in background_tasks.py)
   --------------------------------------------------------------- -/

/-- TaskStatus enum from background_tasks.py (PENDING/RUNNING/COMPLETED/FAILED/CANCELLED). -/
inductive TaskStatus where
  | pending
  | running
  | completed
  | failed
  | cancelled
deriving DecidableEq, Repr

/-- The terminal statuses, i.e. the list
[TaskStatus.COMPLETED, TaskStatus.FAILED, TaskStatus.CANCELLED] used by
get_all_tasks and cleanup_completed_tasks. -/
def isTerminal : TaskStatus → Bool
  | TaskStatus.completed => true
  | TaskStatus.failed => true
  | TaskStatus.cancelled => true
  | _ => false

/-- BackgroundTask dataclass.  datetime values are modelled as Nat instants;
the result payload and error text as strings.  progress is 0.0 or 100.0 in the
source, modelled as a Nat. -/
structure TaskRec where
  name : String
  status : TaskStatus
  created_at : Nat
  started_at : Option Nat
  completed_at : Option Nat
  progress : Nat
  result : Option String
  error_message : Option String
deriving DecidableEq, Repr

/-- Control position of the coroutine _execute_task for one task:
waitingSlot = inside the try, awaiting the semaphore (status still PENDING);
runningWork = holding the semaphore, awaiting task_func (status RUNNING);
finished = the coroutine has left the try/except (status terminal). -/
inductive Phase where
  | waitingSlot
  | runningWork
  | finished
deriving DecidableEq, Repr

structure TaskExec where
  record : TaskRec
  phase : Phase
deriving DecidableEq, Repr

/-- The service state: _semaphore available permits, the _tasks map
(modelled as an association list keyed by creation order; uuid4 ids are
modelled by a fresh counter nextId), plus the fresh-id counter. -/
structure RegistryState where
  semAvail : Nat
  tasks : List (Nat × TaskExec)
  nextId : Nat
deriving DecidableEq, Repr

/-- dict lookup self._tasks.get(task_id). -/
def findTask (id : Nat) : List (Nat × TaskExec) → Option TaskExec
  | [] => none
  | (j, e) :: rest => if j = id then some e else findTask id rest

/-- Number of tasks whose status is RUNNING. -/
def runningCount (ts : List (Nat × TaskExec)) : Nat :=
  ts.countP (fun p => p.2.record.status == TaskStatus.running)

/-- The record inserted by create_task: status PENDING, created_at now,
no started_at/completed_at, progress 0, no result, no error. -/
def newExec (name : String) (t : Nat) : TaskExec :=
  { record := { name := name, status := TaskStatus.pending, created_at := t,
                started_at := none, completed_at := none, progress := 0,
                result := none, error_message := none },
    phase := Phase.waitingSlot }

/-- Entering the semaphore block in _execute_task:
status := RUNNING, started_at := now. -/
def startRun (e : TaskExec) (t : Nat) : TaskExec :=
  { record := { e.record with status := TaskStatus.running, started_at := some t },
    phase := Phase.runningWork }

/-- task_func returned: status := COMPLETED, completed_at := now,
progress := 100, result stored. -/
def finishOk (e : TaskExec) (t : Nat) (r : String) : TaskExec :=
  { record :=
      { e.record with
        status := TaskStatus.completed
        completed_at := some t
        progress := 100
        result := some r },
    phase := Phase.finished }

/-- except Exception branch: status := FAILED, completed_at := now,
error_message := str(e). -/
def finishFail (e : TaskExec) (t : Nat) (msg : String) : TaskExec :=
  { record :=
      { e.record with
        status := TaskStatus.failed
        completed_at := some t
        error_message := some msg },
    phase := Phase.finished }

/-- except asyncio.CancelledError branch: status := CANCELLED,
completed_at := now. -/
def finishCancel (e : TaskExec) (t : Nat) : TaskExec :=
  { record := { e.record with status := TaskStatus.cancelled, completed_at := some t },
    phase := Phase.finished }

/-- Guard of cleanup_completed_tasks: terminal status, completed_at set,
and (now - completed_at) older than the retention window. -/
def expired (e : TaskExec) (tnow window : Nat) : Bool :=
  isTerminal e.record.status &&
    (match e.record.completed_at with
     | some c => window < tnow - c
     | none => false)

/-- create_task: assign a fresh id, insert a PENDING record, schedule
_execute_task, return the id.  It is a total function: no exception from the
unit of work can reach it, since the work runs later inside _execute_task. -/
def createTask (st : RegistryState) (name : String) (t : Nat) :
    Nat × RegistryState :=
  (st.nextId,
   { semAvail := st.semAvail,
     tasks := st.tasks ++ [(st.nextId, newExec name t)],
     nextId := st.nextId + 1 })

/-- get_task_status: point-in-time lookup, no side effect. -/
def getTaskStatus (st : RegistryState) (id : Nat) : Option TaskRec :=
  (findTask id st.tasks).map TaskExec.record

/-- The fresh service: BackgroundTaskService(max_concurrent_tasks = n),
semaphore at n permits, empty task map. -/
def initState (n : Nat) : RegistryState :=
  { semAvail := n, tasks := [], nextId := 0 }

/-- One scheduler step of the service, covering every mutation of the task
map in background_tasks.py: creation, the transitions of _execute_task
(semaphore acquisition, normal return, exception, cancellation delivered
while waiting or while running) and the cleanup sweep.  Each transition of
_execute_task updates exactly one record; leaving the semaphore block
returns the permit. -/
inductive Step : RegistryState → RegistryState → Prop where
  | create (st : RegistryState) (name : String) (t : Nat) :
      Step st (createTask st name t).2
  | acquire (st : RegistryState) (pre post : List (Nat × TaskExec))
      (id : Nat) (e : TaskExec) (t : Nat)
      (hdec : st.tasks = pre ++ (id, e) :: post)
      (hph : e.phase = Phase.waitingSlot)
      (hsem : 0 < st.semAvail) :
      Step st { semAvail := st.semAvail - 1,
                tasks := pre ++ (id, startRun e t) :: post,
                nextId := st.nextId }
  | complete (st : RegistryState) (pre post : List (Nat × TaskExec))
      (id : Nat) (e : TaskExec) (t : Nat) (r : String)
      (hdec : st.tasks = pre ++ (id, e) :: post)
      (hph : e.phase = Phase.runningWork) :
      Step st { semAvail := st.semAvail + 1,
                tasks := pre ++ (id, finishOk e t r) :: post,
                nextId := st.nextId }
  | fail (st : RegistryState) (pre post : List (Nat × TaskExec))
      (id : Nat) (e : TaskExec) (t : Nat) (msg : String)
      (hdec : st.tasks = pre ++ (id, e) :: post)
      (hph : e.phase = Phase.runningWork) :
      Step st { semAvail := st.semAvail + 1,
                tasks := pre ++ (id, finishFail e t msg) :: post,
                nextId := st.nextId }
  | cancelRunning (st : RegistryState) (pre post : List (Nat × TaskExec))
      (id : Nat) (e : TaskExec) (t : Nat)
      (hdec : st.tasks = pre ++ (id, e) :: post)
      (hph : e.phase = Phase.runningWork) :
      Step st { semAvail := st.semAvail + 1,
                tasks := pre ++ (id, finishCancel e t) :: post,
                nextId := st.nextId }
  | cancelWaiting (st : RegistryState) (pre post : List (Nat × TaskExec))
      (id : Nat) (e : TaskExec) (t : Nat)
      (hdec : st.tasks = pre ++ (id, e) :: post)
      (hph : e.phase = Phase.waitingSlot) :
      Step st { semAvail := st.semAvail,
                tasks := pre ++ (id, finishCancel e t) :: post,
                nextId := st.nextId }
  | sweep (st : RegistryState) (tnow window : Nat) :
      Step st { semAvail := st.semAvail,
                tasks := st.tasks.filter (fun p => !expired p.2 tnow window),
                nextId := st.nextId }

/-- States reachable from a fresh BackgroundTaskService(n). -/
inductive Reachable (n : Nat) : RegistryState → Prop where
  | init : Reachable n (initState n)
  | step {st st' : RegistryState} :
      Reachable n st → Step st st' → Reachable n st'

/-- The status/phase/timestamp coherence of a single record. -/
def execOk (e : TaskExec) : Prop :=
  (e.phase = Phase.waitingSlot ↔ e.record.status = TaskStatus.pending) ∧
  (e.phase = Phase.runningWork ↔ e.record.status = TaskStatus.running) ∧
  (e.record.completed_at.isSome = true ↔ isTerminal e.record.status = true)

/-- Registry invariant: record coherence, unique ids below the fresh
counter, and semaphore accounting (permits + running tasks = ceiling). -/
def RegInv (n : Nat) (st : RegistryState) : Prop :=
  (∀ p, p ∈ st.tasks → execOk p.2) ∧
  (st.tasks.map Prod.fst).Nodup ∧
  (∀ p, p ∈ st.tasks → p.1 < st.nextId) ∧
  st.semAvail + runningCount st.tasks = n

/- ---------------------------------------------------------------
   Per-file processing (document_processor.py, core/utils.py)
   --------------------------------------------------------------- -/

/-- A langchain Document: page content plus a metadata map, modelled as an
association list with string values (the float timestamp is rendered). -/
structure Document where
  pageContent : String
  metadata : List (String × String)
deriving DecidableEq, Repr

/-- Oracle describing how the operating system and the langchain
collaborators behave on one file path: the outcome of os.path.getsize
(none = OSError), of UnstructuredFileLoader(path).load() (error = raised),
and of text_splitter.split_documents on the loaded documents
(error = raised, carrying str(e)). -/
structure FSFile where
  size : Option Nat
  load : Except String (List Document)
  split : Except String (List Document)
deriving Repr

/-- Final path component (the name used by pathlib.Path suffix): the text
after the last path separator. -/
def fileName (p : String) : String :=
  String.mk ((p.toList.reverse.takeWhile (fun c => c != '/')).reverse)

/-- get_file_extension in core/utils.py: Path(file_path).suffix.lower().
pathlib suffix: the part of the final component from its last dot, unless
the dot is at position 0 or at the very end. -/
def get_file_extension (p : String) : String :=
  let cs := (fileName p).toList
  match cs.reverse.findIdx? (fun c => c == '.') with
  | none => ""
  | some k =>
      let i := cs.length - 1 - k
      if 0 < i ∧ i < cs.length - 1 then
        String.mk ((cs.drop i).map Char.toLower)
      else ""

/-- The text_extensions set in core/utils.py is_text_file. -/
def textExtensions : List String :=
  [".py", ".js", ".ts", ".tsx", ".jsx", ".java", ".cpp", ".c", ".h", ".hpp",
   ".cs", ".php", ".rb", ".go", ".rs", ".kt", ".swift", ".scala", ".clj",
   ".html", ".css", ".scss", ".sass", ".less", ".xml", ".yaml", ".yml",
   ".json", ".toml", ".ini", ".cfg", ".conf", ".txt", ".md", ".rst",
   ".sql", ".sh", ".bash", ".zsh", ".ps1", ".bat", ".dockerfile", ".r",
   ".matlab", ".m", ".pl", ".lua", ".vim", ".el", ".hs", ".ml", ".fs"]

/-- is_text_file in core/utils.py: extension membership in the set above. -/
def is_text_file (p : String) : Bool :=
  textExtensions.contains (get_file_extension p)

/-- validate_file_size in core/utils.py: os.path.getsize compared with
max_size_mb * 1024 * 1024; an OSError while probing returns False. -/
def validate_file_size (size : Option Nat) (maxMb : Nat) : Bool :=
  match size with
  | some s => s ≤ maxMb * 1024 * 1024
  | none => false

/-- _load_document: UnstructuredFileLoader load with a catch-all that
returns the empty list when the loader raises. -/
def load_document (f : FSFile) : List Document :=
  match f.load with
  | Except.ok ds => ds
  | Except.error _ => []

/-- dict.update on a chunk metadata map: replace the value of an existing
key, append unseen keys. -/
def metaSet (m : List (String × String)) (k v : String) :
    List (String × String) :=
  if m.any (fun kv => kv.1 == k) then
    m.map (fun kv => if kv.1 == k then (k, v) else kv)
  else m ++ [(k, v)]

def metaUpdate (m : List (String × String)) (kvs : List (String × String)) :
    List (String × String) :=
  kvs.foldl (fun acc kv => metaSet acc kv.1 kv.2) m

/-- file_type metadata value: file_path.split('.')[-1] if '.' in file_path
else 'unknown' (note: split over the whole path, not the basename). -/
def fileTypeOf (p : String) : String :=
  let cs := p.toList
  if cs.contains '.' then
    String.mk ((cs.reverse.takeWhile (fun c => c != '.')).reverse)
  else "unknown"

/-- Provenance metadata attached to each chunk by
_process_single_file_async: source_file, file_type, processing_timestamp. -/
def addChunkMetadata (path : String) (now : Nat) (d : Document) : Document :=
  let kvs := [("source_file", path), ("file_type", fileTypeOf path),
              ("processing_timestamp", toString now)]
  { d with metadata := metaUpdate d.metadata kvs }

/-- FileProcessingResult dataclass in document_processor.py. -/
structure FileProcessingResult where
  file_path : String
  success : Bool
  documents : List Document
  error_message : Option String
deriving DecidableEq, Repr

/-- The size-limit error text used by _process_single_file_async. -/
def sizeLimitMsg (maxMb : Nat) : String :=
  "File exceeds " ++ toString maxMb ++ "MB limit"

/-- _process_single_file_async in document_processor.py: non-text extension
and oversized files are rejected with an error result; the loader runs with
its catch-all (empty result for a raised load); an empty load is rejected;
a raised split is caught by the outer except which returns a failure result
carrying str(e); otherwise the split chunks get provenance metadata and a
success result.  The function is total: every path returns a
FileProcessingResult, mirroring the enclosing try/except. -/
def processSingleFile (maxMb now : Nat) (path : String) (f : FSFile) :
    FileProcessingResult :=
  if !is_text_file path then
    { file_path := path, success := false, documents := [],
      error_message := some "Not a text file" }
  else if !validate_file_size f.size maxMb then
    { file_path := path, success := false, documents := [],
      error_message := some (sizeLimitMsg maxMb) }
  else
    let documents := load_document f
    if documents.isEmpty then
      { file_path := path, success := false, documents := [],
        error_message := some "No content loaded from file" }
    else
      match f.split with
      | Except.error e =>
          { file_path := path, success := false, documents := [],
            error_message := some e }
      | Except.ok chunks =>
          { file_path := path, success := true,
            documents := chunks.map (addChunkMetadata path now),
            error_message := none }

/- ---------------------------------------------------------------
   Concurrent batch processing (process_files_concurrent)
   --------------------------------------------------------------- -/

/-- ProcessingResult dataclass (elapsed wall time modelled as a Nat
parameter). -/
structure ProcessingResult where
  success : Bool
  documents_processed : Nat
  documents_failed : Nat
  processing_time : Nat
  error_message : Option String
deriving DecidableEq, Repr

/-- The successful_files tally of the collection loop. -/
def succeededCount (rs : List FileProcessingResult) : Nat :=
  rs.countP (fun r => r.success)

/-- The failed_files tally of the collection loop. -/
def failedCount (rs : List FileProcessingResult) : Nat :=
  rs.countP (fun r => !r.success)

/-- The all_documents accumulator of the collection loop: successful
results contribute their chunks in order, failures contribute nothing. -/
def collectDocs (rs : List FileProcessingResult) : List Document :=
  rs.foldl (fun acc r => if r.success then acc ++ r.documents else acc) []

/-- The per-file results gathered by asyncio.gather, in submission order.
Each file is described by its path and its filesystem oracle. -/
def batchResults (maxMb now : Nat) (files : List (String × FSFile)) :
    List FileProcessingResult :=
  files.map (fun pf => processSingleFile maxMb now pf.1 pf.2)

/-- process_files_concurrent in document_processor.py.  storeOk is the
outcome of the vector_store_service.store_documents collaborator call
(consulted only when chunks were produced); elapsed the measured wall
time. -/
def process_files_concurrent (maxMb now : Nat) (storeOk : Bool)
    (elapsed : Nat) (files : List (String × FSFile)) : ProcessingResult :=
  if files.isEmpty then
    { success := false, documents_processed := 0, documents_failed := 0,
      processing_time := 0, error_message := some "No files provided" }
  else
    let results := batchResults maxMb now files
    let allDocs := collectDocs results
    let storageSuccess := if allDocs.isEmpty then true else storeOk
    { success := storageSuccess && decide (0 < succeededCount results),
      documents_processed := allDocs.length,
      documents_failed := failedCount results,
      processing_time := elapsed,
      error_message :=
        if storageSuccess then none
        else some "Failed to store documents in vector database" }

/- ---------------------------------------------------------------
   Upload byte processing (file_processor.py)
   --------------------------------------------------------------- -/

/-- FileProcessingStats in models/schemas.py (time as Nat). -/
structure FileProcessingStats where
  total_files : Nat
  processed_files : Nat
  skipped_files : Nat
  failed_files : Nat
  processing_time_seconds : Nat
deriving DecidableEq, Repr

/-- safe_filename in core/utils.py: replace path-unsafe characters with an
underscore, strip leading and trailing dots and spaces, fall back to
unnamed_file when nothing remains. -/
def isPathUnsafe (c : Char) : Bool :=
  c == '<' || c == '>' || c == ':' || c == '"' || c == '/' ||
  c == '\\' || c == '|' || c == '?' || c == '*'

def stripDotSpace (cs : List Char) : List Char :=
  ((cs.dropWhile (fun c => c == '.' || c == ' ')).reverse.dropWhile
    (fun c => c == '.' || c == ' ')).reverse

def safe_filename (s : String) : String :=
  let replaced := s.toList.map (fun c => if isPathUnsafe c then '_' else c)
  let stripped := stripDotSpace replaced
  if stripped.isEmpty then "unnamed_file" else String.mk stripped

/-- One (filename, data) item handed to process_uploaded_file_bytes: the
filename, whether the aiofiles write of its bytes succeeds, and the
filesystem oracle for the written file. -/
structure ByteItem where
  filename : String
  writeOk : Bool
  file : FSFile
deriving Repr

/-- process_uploaded_file_bytes in file_processor.py: writes each item
under the per-task temp directory (failed writes are logged and dropped),
fails with HTTP 400 when nothing was saved, then runs
process_files_concurrent over the saved paths and reports
FileProcessingStats with skipped_files hard-coded to 0 and failed_files
taken from the batch failure tally.  Errors are HTTP status codes. -/
def process_uploaded_file_bytes (maxMb now : Nat) (storeOk : Bool)
    (elapsed : Nat) (tmpDir : String) (items : List ByteItem) :
    Except Nat FileProcessingStats :=
  if items.isEmpty then Except.error 400
  else
    let saved := items.filter (fun it => it.writeOk)
    if saved.isEmpty then Except.error 400
    else
      let pr := process_files_concurrent maxMb now storeOk elapsed
        (saved.map (fun it => (tmpDir ++ "/" ++ safe_filename it.filename, it.file)))
      Except.ok
        { total_files := items.length,
          processed_files := pr.documents_processed,
          skipped_files := 0,
          failed_files := pr.documents_failed,
          processing_time_seconds := pr.processing_time }

/- ---------------------------------------------------------------
   Repository submission endpoint (data_processing.py, schemas.py)
   --------------------------------------------------------------- -/

/-- Scheme component of a URL: the text before the first colon, provided
it is followed by the double slash; none otherwise. -/
def urlScheme (s : String) : Option String :=
  let cs := s.toList
  let pre := cs.takeWhile (fun c => c != ':')
  let rest := cs.drop pre.length
  if rest.take 3 = [':', '/', '/'] then some (String.mk pre) else none

/-- The scheme restriction of the pydantic HttpUrl type used by
RepoURL.url in models/schemas.py: only http and https URLs parse; request
bodies with any other scheme are rejected by schema validation before the
endpoint body runs. -/
def httpUrlSchemeOk (s : String) : Bool :=
  match urlScheme s with
  | some sch => sch == "http" || sch == "https"
  | none => false

/-- The process-repo endpoint in data_processing.py: the request body is
parsed as RepoURL first (pydantic HttpUrl validation); on failure the
framework answers 422 and the handler never runs, so the registry state is
returned untouched.  On success the handler immediately calls
bg_service.create_task and answers with the new task id. -/
def process_repo_endpoint (st : RegistryState) (url : String) (t : Nat) :
    Except Nat Nat × RegistryState :=
  if httpUrlSchemeOk url then
    let idst := createTask st ("Processing repository: " ++ url) t
    (Except.ok idst.1, idst.2)
  else (Except.error 422, st)

/- ---------------------------------------------------------------
   Upload routing loop (process_uploaded_files in data_processing.py)
   --------------------------------------------------------------- -/

/-- IN_MEMORY_LIMIT_BYTES in data_processing.py. -/
def IN_MEMORY_LIMIT_BYTES : Nat := 5 * 1024 * 1024

/-- One incoming UploadFile as the routing loop observes it: its filename
(empty models a missing filename), the hex of the uuid4 fallback name,
whether f.read() succeeds, whether the aiofiles write would succeed, and
the byte length of the content read.  The content itself is abstracted by
its length, which is all the routing decision inspects. -/
structure UploadIn where
  filename : String
  freshName : String
  readOk : Bool
  writeOk : Bool
  size : Nat
deriving DecidableEq, Repr

/-- The sanitized name the loop computes:
safe_filename(f.filename or upload_uuid4hex). -/
def sanitName (u : UploadIn) : String :=
  safe_filename (if u.filename == "" then "upload_" ++ u.freshName else u.filename)

/-- Mutable locals of the routing loop: the lazily created per-task temp
directory, the saved on-disk paths, and the retained in-memory items
(sanitized name paired with the content, abstracted by its length). -/
structure RouteState where
  taskTempDir : Option String
  savedPaths : List String
  itemsInMemory : List (String × Nat)
deriving DecidableEq, Repr

/-- One iteration of the for-loop in process_uploaded_files: a failed read
or empty content is skipped; content at or below the threshold is kept in
memory; otherwise the temp directory is created on first need (dirName
models the fresh upload_uuid4hex directory chosen for this submission) and
the content is written under the sanitized name, a failed write dropping
the path but keeping the directory. -/
def routeStep (dirName : String) (st : RouteState) (u : UploadIn) :
    RouteState :=
  if !u.readOk then st
  else if u.size == 0 then st
  else if u.size ≤ IN_MEMORY_LIMIT_BYTES then
    { st with itemsInMemory := st.itemsInMemory ++ [(sanitName u, u.size)] }
  else
    let dir := st.taskTempDir.getD dirName
    let st1 := { st with taskTempDir := some dir }
    if u.writeOk then
      { st1 with savedPaths := st1.savedPaths ++ [dir ++ "/" ++ sanitName u] }
    else st1

/-- The whole routing loop, from the empty locals. -/
def routeUploads (dirName : String) (us : List UploadIn) : RouteState :=
  us.foldl (routeStep dirName) { taskTempDir := none, savedPaths := [], itemsInMemory := [] }

/-- The in-memory items the loop should retain: non-empty readable content
at or below the threshold. -/
def memOf (us : List UploadIn) : List (String × Nat) :=
  us.filterMap (fun u =>
    if u.readOk && !(u.size == 0) && decide (u.size ≤ IN_MEMORY_LIMIT_BYTES) then
      some (sanitName u, u.size)
    else none)

/-- The on-disk paths the loop should save: oversized readable content
whose write succeeds, under the submission directory. -/
def diskOf (dirName : String) (us : List UploadIn) : List String :=
  us.filterMap (fun u =>
    if u.readOk && decide (IN_MEMORY_LIMIT_BYTES < u.size) && u.writeOk then
      some (dirName ++ "/" ++ sanitName u)
    else none)

/-- Whether some item forces creation of the scratch directory. -/
def needsDisk (us : List UploadIn) : Bool :=
  us.any (fun u => u.readOk && decide (IN_MEMORY_LIMIT_BYTES < u.size))

/- ---------------------------------------------------------------
   Scratch-directory cleanup traces (_bg_worker, repository.py)
   --------------------------------------------------------------- -/

/-- Filesystem effects relevant to scratch-space handling. -/
inductive FsAction where
  | ensureDir (d : String)
  | removeDir (d : String)
  | cloneInto (d : String)
deriving DecidableEq, Repr

/-- Outcome of a collaborator call: normal return, an HTTPException (status
code), or a generic exception (str(e)). -/
inductive CallOutcome (α : Type) where
  | ok (a : α)
  | httpErr (code : Nat)
  | exn (msg : String)
deriving DecidableEq, Repr

/-- _bg_worker in data_processing.py.  file_proc is the
FileProcessingService instance, which defines both
process_uploaded_file_bytes and process_uploaded_file_paths, so the
hasattr probes take their primary branches.  bytesCall and pathsCall are
the outcomes and filesystem traces of the two collaborator calls; the
finally block appends the unconditional cleanup of the per-task work
directory when one was handed in. -/
def bgWorker (items : List (String × Nat)) (paths : List String)
    (workDir : Option String)
    (bytesCall : CallOutcome Unit × List FsAction)
    (pathsCall : CallOutcome Unit × List FsAction) :
    CallOutcome Unit × List FsAction :=
  let step1 : CallOutcome Unit × List FsAction :=
    if items.isEmpty then (CallOutcome.ok (), []) else bytesCall
  let body : CallOutcome Unit × List FsAction :=
    match step1.1 with
    | CallOutcome.ok _ =>
        if paths.isEmpty then (CallOutcome.ok (), step1.2)
        else (pathsCall.1, step1.2 ++ pathsCall.2)
    | out => (out, step1.2)
  (body.1,
   body.2 ++ (match workDir with
              | some d => [FsAction.removeDir d]
              | none => []))

/-- os.path.dirname: the text before the last path separator. -/
def parentDir (p : String) : String :=
  let cs := p.toList
  match cs.reverse.findIdx? (fun c => c == '/') with
  | none => ""
  | some k => String.mk (cs.take (cs.length - 1 - k))

/-- RepositoryService.process_repository in repository.py, as a trace of
scratch-tree actions.  An invalid URL raises HTTP 400 before touching the
tree.  Otherwise, under the clone lock: clear any stale tree, ensure the
parent directory, attempt the shallow clone into the tree (a failed clone
raises HTTP 400), then delegate to process_directory_files whose outcome
is returned as-is for HTTPExceptions and wrapped as HTTP 500 for generic
exceptions; the finally block removes the tree unconditionally. -/
def processRepositoryTrace (tempRepoDir : String) (urlValid cloneOk : Bool)
    (processCall : CallOutcome FileProcessingStats) :
    Except Nat FileProcessingStats × List FsAction :=
  if !urlValid then (Except.error 400, [])
  else
    let pre := [FsAction.removeDir tempRepoDir,
                FsAction.ensureDir (parentDir tempRepoDir),
                FsAction.cloneInto tempRepoDir]
    let resActs : Except Nat FileProcessingStats × List FsAction :=
      if !cloneOk then (Except.error 400, pre)
      else
        match processCall with
        | CallOutcome.ok stats => (Except.ok stats, pre)
        | CallOutcome.httpErr c => (Except.error c, pre)
        | CallOutcome.exn _ => (Except.error 500, pre)
    (resActs.1, resActs.2 ++ [FsAction.removeDir tempRepoDir])

/- ---------------------------------------------------------------
   Concrete scenario states used by the witnesses
   --------------------------------------------------------------- -/

/-- A pending task right after create_task on a fresh service of ceiling 3. -/
def stA : RegistryState := (createTask (initState 3) "job" 5).2

/-- The same task after the semaphore grant. -/
def stB : RegistryState :=
  { semAvail := 2, tasks := [(0, startRun (newExec "job" 5) 6)], nextId := 1 }

/-- The record after its unit of work raised with text boom. -/
def execDone : TaskExec := finishFail (startRun (newExec "job" 5) 6) 7 "boom"

/-- The service after the failure was recorded. -/
def stC : RegistryState := { semAvail := 3, tasks := [(0, execDone)], nextId := 1 }

/-- The service after a cleanup sweep at time 5000 with window 3600. -/
def stD : RegistryState :=
  { semAvail := stC.semAvail,
    tasks := stC.tasks.filter (fun p => !expired p.2 5000 3600),
    nextId := stC.nextId }

/-- Oracle for a readable small Python file whose content splits into two
chunks. -/
def fsPyOk : FSFile :=
  { size := some 200,
    load := Except.ok [{ pageContent := "print(1)", metadata := [] }],
    split := Except.ok [{ pageContent := "c1", metadata := [] },
                        { pageContent := "c2", metadata := [] }] }

/-- Oracle for an unreadable file: the loader raises. -/
def fsUnreadable : FSFile :=
  { size := some 10, load := Except.error "permission denied",
    split := Except.ok [] }

/-- Oracle whose splitter raises an exception with empty text. -/
def fsSplitRaisesEmpty : FSFile :=
  { size := some 10,
    load := Except.ok [{ pageContent := "print", metadata := [] }],
    split := Except.error "" }

/-- Oracle for a missing file: the size probe raises OSError. -/
def fsMissing : FSFile :=
  { size := none, load := Except.ok [], split := Except.ok [] }

/-- Oracle for a binary upload; never consulted past the extension check. -/
def fsPng : FSFile :=
  { size := some 999, load := Except.ok [], split := Except.ok [] }

/-- Batch of four valid Python files and one unreadable one. -/
def c4Batch : List (String × FSFile) :=
  [("a.py", fsPyOk), ("b.py", fsPyOk), ("c.py", fsPyOk), ("d.py", fsPyOk),
   ("e.py", fsUnreadable)]

/-- The two-item upload of the end-to-end scenario: a.py and b.png. -/
def itemA : ByteItem := { filename := "a.py", writeOk := true, file := fsPyOk }

def itemB : ByteItem := { filename := "b.png", writeOk := true, file := fsPng }

/-- Concrete uploads for the routing scenario: a 3 MiB payload, an empty
one, and a 7 MiB payload. -/
def uSmall : UploadIn :=
  { filename := "notes.txt", freshName := "aa", readOk := true,
    writeOk := true, size := 3 * 1024 * 1024 }

def uEmpty : UploadIn :=
  { filename := "empty.bin", freshName := "bb", readOk := true,
    writeOk := true, size := 0 }

def uBig : UploadIn :=
  { filename := "video.mp4", freshName := "cc", readOk := true,
    writeOk := true, size := 7 * 1024 * 1024 }

/- ---------------------------------------------------------------
   Lemmas about the registry map
   --------------------------------------------------------------- -/

theorem findTask_append_some {id : Nat} {l1 : List (Nat × TaskExec)}
    (l2 : List (Nat × TaskExec)) {e : TaskExec}
    (h : findTask id l1 = some e) : findTask id (l1 ++ l2) = some e := by
  induction l1 with
  | nil => simp [findTask] at h
  | cons a l ih =>
      obtain ⟨j, x⟩ := a
      by_cases hj : j = id
      · simp [findTask, hj] at h ⊢; exact h
      · simp [findTask, hj] at h ⊢; exact ih h

theorem findTask_append_none {id : Nat} {l1 : List (Nat × TaskExec)}
    (l2 : List (Nat × TaskExec))
    (h : findTask id l1 = none) : findTask id (l1 ++ l2) = findTask id l2 := by
  induction l1 with
  | nil => simp
  | cons a l ih =>
      obtain ⟨j, x⟩ := a
      by_cases hj : j = id
      · simp [findTask, hj] at h
      · simp [findTask, hj] at h ⊢; exact ih h

theorem findTask_none_of_not_mem {id : Nat} {l : List (Nat × TaskExec)}
    (h : id ∉ l.map Prod.fst) : findTask id l = none := by
  induction l with
  | nil => rfl
  | cons a l ih =>
      obtain ⟨j, x⟩ := a
      simp only [List.map_cons, List.mem_cons, not_or] at h
      have hj : j ≠ id := fun hc => h.1 hc.symm
      simp only [findTask, if_neg hj]
      exact ih h.2

theorem findTask_mem {id : Nat} {l : List (Nat × TaskExec)} {e : TaskExec}
    (h : findTask id l = some e) : (id, e) ∈ l := by
  induction l with
  | nil => simp [findTask] at h
  | cons a l ih =>
      obtain ⟨j, x⟩ := a
      by_cases hj : j = id
      · simp [findTask, hj] at h; simp [hj, h]
      · simp [findTask, hj] at h; simp [ih h]

theorem keys_not_mem_pre {pre post : List (Nat × TaskExec)} {id : Nat}
    {e : TaskExec}
    (h : ((pre ++ (id, e) :: post).map Prod.fst).Nodup) :
    id ∉ pre.map Prod.fst := by
  simp only [List.map_append, List.map_cons] at h
  intro hmem
  rcases List.nodup_append.mp h with ⟨_, _, hdisj⟩
  exact hdisj hmem (by simp)

theorem findTask_at {pre post : List (Nat × TaskExec)} {id : Nat}
    {e : TaskExec}
    (h : ((pre ++ (id, e) :: post).map Prod.fst).Nodup) :
    findTask id (pre ++ (id, e) :: post) = some e := by
  rw [findTask_append_none _ (findTask_none_of_not_mem (keys_not_mem_pre h))]
  simp [findTask]

theorem findTask_ne {pre post : List (Nat × TaskExec)} {id j : Nat}
    (e x : TaskExec) (hne : j ≠ id) :
    findTask j (pre ++ (id, e) :: post) = findTask j (pre ++ (id, x) :: post) := by
  have hid : id ≠ j := fun hc => hne hc.symm
  cases hp : findTask j pre with
  | some y =>
      rw [findTask_append_some _ hp, findTask_append_some _ hp]
  | none =>
      rw [findTask_append_none _ hp, findTask_append_none _ hp]
      simp only [findTask, if_neg hid]

theorem keys_filter_subset {id : Nat} {l : List (Nat × TaskExec)}
    (q : Nat × TaskExec → Bool)
    (h : id ∈ (l.filter q).map Prod.fst) : id ∈ l.map Prod.fst := by
  simp only [List.mem_map] at h ⊢
  obtain ⟨p, hp, hid⟩ := h
  exact ⟨p, (List.mem_filter.mp hp).1, hid⟩

theorem findTask_filter {id : Nat} {e : TaskExec}
    (q : Nat × TaskExec → Bool) :
    ∀ (l : List (Nat × TaskExec)), (l.map Prod.fst).Nodup →
    findTask id l = some e →
    findTask id (l.filter q) = none ∨ findTask id (l.filter q) = some e := by
  intro l
  induction l with
  | nil => intro _ h; simp [findTask] at h
  | cons a l ih =>
      intro hnd h
      obtain ⟨j, x⟩ := a
      simp only [List.map_cons, List.nodup_cons] at hnd
      by_cases hj : j = id
      · subst hj
        simp only [findTask, if_pos rfl] at h
        obtain rfl : x = e := Option.some.inj h
        by_cases hq : q (j, x)
        · right
          simp [List.filter_cons, hq, findTask]
        · left
          rw [List.filter_cons, if_neg (by simpa using hq)]
          exact findTask_none_of_not_mem
            (fun hc => hnd.1 (keys_filter_subset q hc))
      · simp only [findTask, if_neg hj] at h
        have htail := ih hnd.2 h
        by_cases hq : q (j, x)
        · rw [List.filter_cons, if_pos hq]
          simpa only [findTask, if_neg hj] using htail
        · rw [List.filter_cons, if_neg (by simpa using hq)]
          exact htail

theorem rc_append (l1 l2 : List (Nat × TaskExec)) :
    runningCount (l1 ++ l2) = runningCount l1 + runningCount l2 := by
  simp [runningCount, List.countP_append]

theorem rc_cons (a : Nat × TaskExec) (l : List (Nat × TaskExec)) :
    runningCount (a :: l) =
      runningCount l + (if a.2.record.status == TaskStatus.running then 1 else 0) := by
  simp [runningCount, List.countP_cons]

theorem rc_filter_eq (q : Nat × TaskExec → Bool) :
    ∀ (l : List (Nat × TaskExec)),
    (∀ p ∈ l, q p = false → (p.2.record.status == TaskStatus.running) = false) →
    runningCount (l.filter q) = runningCount l := by
  intro l
  induction l with
  | nil => intro _; rfl
  | cons a l ih =>
      intro h
      have hl := ih (fun p hp => h p (List.mem_cons_of_mem a hp))
      by_cases hq : q a
      · simp [List.filter_cons, hq, rc_cons, hl]
      · have ha := h a (List.mem_cons_self a l) (by simpa using hq)
        simp [List.filter_cons, hq, rc_cons, hl, ha]

/- ---------------------------------------------------------------
   Registry invariant preservation
   --------------------------------------------------------------- -/

theorem execOk_newExec (name : String) (t : Nat) : execOk (newExec name t) := by
  simp [execOk, newExec, isTerminal]

theorem execOk_startRun {e : TaskExec} (t : Nat) (h : execOk e)
    (hph : e.phase = Phase.waitingSlot) : execOk (startRun e t) := by
  have hpend : e.record.status = TaskStatus.pending := (h.1).mp hph
  have hnone : e.record.completed_at = none := by
    cases hc : e.record.completed_at with
    | none => rfl
    | some c =>
        have := (h.2.2).mp (by simp [hc])
        rw [hpend] at this
        simp [isTerminal] at this
  simp [execOk, startRun, isTerminal, hnone]

theorem execOk_finishOk (e : TaskExec) (t : Nat) (r : String) :
    execOk (finishOk e t r) := by
  simp [execOk, finishOk, isTerminal]

theorem execOk_finishFail (e : TaskExec) (t : Nat) (msg : String) :
    execOk (finishFail e t msg) := by
  simp [execOk, finishFail, isTerminal]

theorem execOk_finishCancel (e : TaskExec) (t : Nat) :
    execOk (finishCancel e t) := by
  simp [execOk, finishCancel, isTerminal]

/-- A terminal status means the coroutine has finished. -/
theorem phase_finished_of_terminal {e : TaskExec} (h : execOk e)
    (ht : isTerminal e.record.status = true) : e.phase = Phase.finished := by
  cases hp : e.phase with
  | finished => rfl
  | waitingSlot =>
      have := (h.1).mp hp
      rw [this] at ht
      simp [isTerminal] at ht
  | runningWork =>
      have := (h.2.1).mp hp
      rw [this] at ht
      simp [isTerminal] at ht

/-- Keys are untouched when one entry is replaced in place. -/
theorem keys_update (pre post : List (Nat × TaskExec)) (id : Nat)
    (e x : TaskExec) :
    (pre ++ (id, x) :: post).map Prod.fst
      = (pre ++ (id, e) :: post).map Prod.fst := by
  simp

theorem mem_update {pre post : List (Nat × TaskExec)} {id : Nat}
    {e x : TaskExec} {p : Nat × TaskExec}
    (hp : p ∈ pre ++ (id, x) :: post) :
    p ∈ pre ++ (id, e) :: post ∨ p = (id, x) := by
  rcases List.mem_append.mp hp with hl | hr
  · exact Or.inl (List.mem_append_left _ hl)
  · rcases List.mem_cons.mp hr with he | hpost
    · exact Or.inr he
    · exact Or.inl (List.mem_append_right _ (List.mem_cons_of_mem _ hpost))

/-- Every reachable service state satisfies the registry invariant. -/
theorem reachable_inv (n : Nat) :
    ∀ st : RegistryState, Reachable n st → RegInv n st := by
  intro st h
  induction h with
  | init =>
      refine ⟨?_, ?_, ?_, ?_⟩ <;> simp [initState, RegInv, runningCount]
  | @step st st' _ hstep ih =>
      obtain ⟨hOk, hNd, hLt, hCnt⟩ := ih
      cases hstep with
      | create name t =>
          refine ⟨?_, ?_, ?_, ?_⟩
          · intro p hp
            rcases List.mem_append.mp hp with hl | hr
            · exact hOk p hl
            · simp at hr
              rw [hr]
              exact execOk_newExec name t
          · simp only [createTask, List.map_append, List.map_cons, List.map_nil]
            rw [List.nodup_append]
            refine ⟨hNd, List.nodup_singleton _, ?_⟩
            intro a ha hb
            simp at hb
            rcases List.mem_map.mp ha with ⟨p, hp, hfst⟩
            have := hLt p hp
            omega
          · intro p hp
            rcases List.mem_append.mp hp with hl | hr
            · have := hLt p hl
              simp [createTask]
              omega
            · simp at hr
              simp [createTask, hr]
          · simp only [createTask, rc_append]
            have : runningCount [(st.nextId, newExec name t)] = 0 := by
              simp [runningCount, newExec]
            simp [this, hCnt]
      | acquire pre post id e t hdec hph hsem =>
          have hmem : (id, e) ∈ st.tasks := by rw [hdec]; simp
          have he := hOk _ hmem
          refine ⟨?_, ?_, ?_, ?_⟩
          · intro p hp
            rcases mem_update hp with hl | hr
            · exact hOk p (hdec ▸ hl)
            · rw [hr]; exact execOk_startRun t he hph
          · rw [keys_update pre post id e (startRun e t), ← hdec]; exact hNd
          · intro p hp
            rcases mem_update hp with hl | hr
            · exact hLt p (hdec ▸ hl)
            · have := hLt (id, e) hmem
              rw [hr]; exact this
          · rw [hdec] at hCnt
            rw [rc_append, rc_cons] at hCnt ⊢
            have h1 : ((startRun e t).record.status == TaskStatus.running) = true := by
              simp [startRun]
            have h2 : (e.record.status == TaskStatus.running) = false := by
              have : e.record.status = TaskStatus.pending := (he.1).mp hph
              simp [this]
            rw [h1] at *
            rw [h2] at hCnt
            simp at hCnt ⊢
            omega
      | complete pre post id e t r hdec hph =>
          have hmem : (id, e) ∈ st.tasks := by rw [hdec]; simp
          have he := hOk _ hmem
          refine ⟨?_, ?_, ?_, ?_⟩
          · intro p hp
            rcases mem_update hp with hl | hr
            · exact hOk p (hdec ▸ hl)
            · rw [hr]; exact execOk_finishOk e t r
          · rw [keys_update pre post id e (finishOk e t r), ← hdec]; exact hNd
          · intro p hp
            rcases mem_update hp with hl | hr
            · exact hLt p (hdec ▸ hl)
            · rw [hr]; exact hLt (id, e) hmem
          · rw [hdec] at hCnt
            rw [rc_append, rc_cons] at hCnt ⊢
            have h1 : ((finishOk e t r).record.status == TaskStatus.running) = false := by
              simp [finishOk]
            have h2 : (e.record.status == TaskStatus.running) = true := by
              have : e.record.status = TaskStatus.running := (he.2.1).mp hph
              simp [this]
            rw [h1]
            rw [h2] at hCnt
            simp at hCnt ⊢
            omega
      | fail pre post id e t msg hdec hph =>
          have hmem : (id, e) ∈ st.tasks := by rw [hdec]; simp
          have he := hOk _ hmem
          refine ⟨?_, ?_, ?_, ?_⟩
          · intro p hp
            rcases mem_update hp with hl | hr
            · exact hOk p (hdec ▸ hl)
            · rw [hr]; exact execOk_finishFail e t msg
          · rw [keys_update pre post id e (finishFail e t msg), ← hdec]; exact hNd
          · intro p hp
            rcases mem_update hp with hl | hr
            · exact hLt p (hdec ▸ hl)
            · rw [hr]; exact hLt (id, e) hmem
          · rw [hdec] at hCnt
            rw [rc_append, rc_cons] at hCnt ⊢
            have h1 : ((finishFail e t msg).record.status == TaskStatus.running) = false := by
              simp [finishFail]
            have h2 : (e.record.status == TaskStatus.running) = true := by
              have : e.record.status = TaskStatus.running := (he.2.1).mp hph
              simp [this]
            rw [h1]
            rw [h2] at hCnt
            simp at hCnt ⊢
            omega
      | cancelRunning pre post id e t hdec hph =>
          have hmem : (id, e) ∈ st.tasks := by rw [hdec]; simp
          have he := hOk _ hmem
          refine ⟨?_, ?_, ?_, ?_⟩
          · intro p hp
            rcases mem_update hp with hl | hr
            · exact hOk p (hdec ▸ hl)
            · rw [hr]; exact execOk_finishCancel e t
          · rw [keys_update pre post id e (finishCancel e t), ← hdec]; exact hNd
          · intro p hp
            rcases mem_update hp with hl | hr
            · exact hLt p (hdec ▸ hl)
            · rw [hr]; exact hLt (id, e) hmem
          · rw [hdec] at hCnt
            rw [rc_append, rc_cons] at hCnt ⊢
            have h1 : ((finishCancel e t).record.status == TaskStatus.running) = false := by
              simp [finishCancel]
            have h2 : (e.record.status == TaskStatus.running) = true := by
              have : e.record.status = TaskStatus.running := (he.2.1).mp hph
              simp [this]
            rw [h1]
            rw [h2] at hCnt
            simp at hCnt ⊢
            omega
      | cancelWaiting pre post id e t hdec hph =>
          have hmem : (id, e) ∈ st.tasks := by rw [hdec]; simp
          have he := hOk _ hmem
          refine ⟨?_, ?_, ?_, ?_⟩
          · intro p hp
            rcases mem_update hp with hl | hr
            · exact hOk p (hdec ▸ hl)
            · rw [hr]; exact execOk_finishCancel e t
          · rw [keys_update pre post id e (finishCancel e t), ← hdec]; exact hNd
          · intro p hp
            rcases mem_update hp with hl | hr
            · exact hLt p (hdec ▸ hl)
            · rw [hr]; exact hLt (id, e) hmem
          · rw [hdec] at hCnt
            rw [rc_append, rc_cons] at hCnt ⊢
            have h1 : ((finishCancel e t).record.status == TaskStatus.running) = false := by
              simp [finishCancel]
            have h2 : (e.record.status == TaskStatus.running) = false := by
              have : e.record.status = TaskStatus.pending := (he.1).mp hph
              simp [this]
            rw [h1]
            rw [h2] at hCnt
            simp at hCnt ⊢
            omega
      | sweep tnow window =>
          refine ⟨?_, ?_, ?_, ?_⟩
          · intro p hp
            exact hOk p (List.mem_filter.mp hp).1
          · exact List.Nodup.sublist (List.Sublist.map _ (List.filter_sublist _)) hNd
          · intro p hp
            exact hLt p (List.mem_filter.mp hp).1
          · rw [rc_filter_eq _ st.tasks ?removed]
            · exact hCnt
            case removed =>
              intro p hp hq
              have hexp : expired p.2 tnow window = true := by
                simpa using hq
              have hterm : isTerminal p.2.record.status = true := by
                have hx := hexp
                unfold expired at hx
                rw [Bool.and_eq_true] at hx
                exact hx.1
              cases hs : p.2.record.status <;> simp_all [isTerminal]

/- ---------------------------------------------------------------
   Claim theorems for the task registry
   --------------------------------------------------------------- -/

/-- C1: for every task record managed by the registry, completed_at is set
if and only if the status is one of Completed/Failed/Cancelled, and once a
task is terminal no later operation of the service changes its record:
every subsequent step either leaves the record intact or removes it
entirely (the cleanup sweep), never altering its status. -/
theorem c1_completed_at_iff_terminal_and_terminal_frozen
    (n : Nat) (st : RegistryState) (hr : Reachable n st) :
    (∀ p ∈ st.tasks,
      (p.2.record.completed_at.isSome = true ↔
        isTerminal p.2.record.status = true)) ∧
    (∀ st', Step st st' → ∀ id e, findTask id st.tasks = some e →
      isTerminal e.record.status = true →
      findTask id st'.tasks = none ∨ findTask id st'.tasks = some e) := by
  obtain ⟨hOk, hNd, hLt, hCnt⟩ := reachable_inv n st hr
  constructor
  · intro p hp
    exact (hOk p hp).2.2
  · intro st' hstep id e hf ht
    have hmem := findTask_mem hf
    have hexec := hOk _ hmem
    have hfin : e.phase = Phase.finished := phase_finished_of_terminal hexec ht
    cases hstep with
    | create name t =>
        right
        exact findTask_append_some _ hf
    | acquire pre post id2 e2 t hdec hph hsem =>
        right
        by_cases hid : id = id2
        · subst hid
          rw [hdec] at hf hNd
          have hat := findTask_at hNd
          have he : e = e2 := Option.some.inj (hf.symm.trans hat)
          rw [he, hph] at hfin
          exact absurd hfin (by decide)
        · rw [hdec] at hf
          show findTask id (pre ++ (id2, startRun e2 t) :: post) = some e
          rw [findTask_ne (startRun e2 t) e2 hid]
          exact hf
    | complete pre post id2 e2 t r hdec hph =>
        right
        by_cases hid : id = id2
        · subst hid
          rw [hdec] at hf hNd
          have hat := findTask_at hNd
          have he : e = e2 := Option.some.inj (hf.symm.trans hat)
          rw [he, hph] at hfin
          exact absurd hfin (by decide)
        · rw [hdec] at hf
          show findTask id (pre ++ (id2, finishOk e2 t r) :: post) = some e
          rw [findTask_ne (finishOk e2 t r) e2 hid]
          exact hf
    | fail pre post id2 e2 t msg hdec hph =>
        right
        by_cases hid : id = id2
        · subst hid
          rw [hdec] at hf hNd
          have hat := findTask_at hNd
          have he : e = e2 := Option.some.inj (hf.symm.trans hat)
          rw [he, hph] at hfin
          exact absurd hfin (by decide)
        · rw [hdec] at hf
          show findTask id (pre ++ (id2, finishFail e2 t msg) :: post) = some e
          rw [findTask_ne (finishFail e2 t msg) e2 hid]
          exact hf
    | cancelRunning pre post id2 e2 t hdec hph =>
        right
        by_cases hid : id = id2
        · subst hid
          rw [hdec] at hf hNd
          have hat := findTask_at hNd
          have he : e = e2 := Option.some.inj (hf.symm.trans hat)
          rw [he, hph] at hfin
          exact absurd hfin (by decide)
        · rw [hdec] at hf
          show findTask id (pre ++ (id2, finishCancel e2 t) :: post) = some e
          rw [findTask_ne (finishCancel e2 t) e2 hid]
          exact hf
    | cancelWaiting pre post id2 e2 t hdec hph =>
        right
        by_cases hid : id = id2
        · subst hid
          rw [hdec] at hf hNd
          have hat := findTask_at hNd
          have he : e = e2 := Option.some.inj (hf.symm.trans hat)
          rw [he, hph] at hfin
          exact absurd hfin (by decide)
        · rw [hdec] at hf
          show findTask id (pre ++ (id2, finishCancel e2 t) :: post) = some e
          rw [findTask_ne (finishCancel e2 t) e2 hid]
          exact hf
    | sweep tnow window =>
        exact findTask_filter _ st.tasks hNd hf

/-- Witness for C1 on a concrete run of ceiling 3: a failed task satisfies
the completed_at iff terminal property, and a cleanup sweep either removes
it or leaves its record unchanged. -/
theorem c1_completed_at_iff_terminal_and_terminal_frozen_witness :
    (execDone.record.completed_at.isSome = true ↔
      isTerminal execDone.record.status = true) ∧
    (findTask 0 stD.tasks = none ∨ findTask 0 stD.tasks = some execDone) := by
  have hr : Reachable 3 stC :=
    Reachable.step
      (Reachable.step
        (Reachable.step Reachable.init (Step.create (initState 3) "job" 5))
        (Step.acquire stA [] [] 0 (newExec "job" 5) 6 rfl rfl (by decide)))
      (Step.fail stB [] [] 0 (startRun (newExec "job" 5) 6) 7 "boom" rfl rfl)
  have h := c1_completed_at_iff_terminal_and_terminal_frozen 3 stC hr
  exact ⟨h.1 (0, execDone) (by simp [stC]),
         h.2 stD (Step.sweep stC 5000 3600) 0 execDone (by decide) (by decide)⟩

/-- C2: in every reachable state of a service configured with ceiling n
(the source default is 3), at most n tasks are simultaneously RUNNING;
moreover a PENDING task can turn RUNNING in one step only when strictly
fewer than n tasks were running, i.e. excess tasks stay PENDING until a
slot frees. -/
theorem c2_running_bounded_by_ceiling
    (n : Nat) (st : RegistryState) (hr : Reachable n st) :
    runningCount st.tasks ≤ n ∧
    (∀ st', Step st st' → ∀ id e ex, findTask id st.tasks = some e →
      e.record.status = TaskStatus.pending →
      findTask id st'.tasks = some ex →
      ex.record.status = TaskStatus.running →
      runningCount st.tasks < n) := by
  obtain ⟨hOk, hNd, hLt, hCnt⟩ := reachable_inv n st hr
  constructor
  · omega
  · intro st' hstep id e ex hf hpend hfx hrun
    cases hstep with
    | create name t =>
        have hfx2 : findTask id (createTask st name t).2.tasks = some e :=
          findTask_append_some _ hf
        have hex : ex = e := (Option.some.inj (hfx2.symm.trans hfx)).symm
        rw [hex, hpend] at hrun
        exact absurd hrun (by decide)
    | acquire pre post id2 e2 t hdec hph hsem =>
        omega
    | complete pre post id2 e2 t r hdec hph =>
        by_cases hid : id = id2
        · subst hid
          rw [hdec] at hf hNd
          have hat := findTask_at hNd
          have he : e = e2 := Option.some.inj (hf.symm.trans hat)
          have hmem : (id, e2) ∈ st.tasks := by rw [hdec]; simp
          have hrun2 : e2.record.status = TaskStatus.running :=
            ((hOk _ hmem).2.1).mp hph
          rw [he, hrun2] at hpend
          exact absurd hpend (by decide)
        · rw [hdec] at hf
          rw [show findTask id (pre ++ (id2, finishOk e2 t r) :: post)
                = findTask id (pre ++ (id2, e2) :: post) from
              findTask_ne (finishOk e2 t r) e2 hid] at hfx
          have hex : ex = e := Option.some.inj (hf.symm.trans hfx).symm
          rw [hex, hpend] at hrun
          exact absurd hrun (by decide)
    | fail pre post id2 e2 t msg hdec hph =>
        by_cases hid : id = id2
        · subst hid
          rw [hdec] at hf hNd
          have hat := findTask_at hNd
          have he : e = e2 := Option.some.inj (hf.symm.trans hat)
          have hmem : (id, e2) ∈ st.tasks := by rw [hdec]; simp
          have hrun2 : e2.record.status = TaskStatus.running :=
            ((hOk _ hmem).2.1).mp hph
          rw [he, hrun2] at hpend
          exact absurd hpend (by decide)
        · rw [hdec] at hf
          rw [show findTask id (pre ++ (id2, finishFail e2 t msg) :: post)
                = findTask id (pre ++ (id2, e2) :: post) from
              findTask_ne (finishFail e2 t msg) e2 hid] at hfx
          have hex : ex = e := Option.some.inj (hf.symm.trans hfx).symm
          rw [hex, hpend] at hrun
          exact absurd hrun (by decide)
    | cancelRunning pre post id2 e2 t hdec hph =>
        by_cases hid : id = id2
        · subst hid
          rw [hdec] at hf hNd
          have hat := findTask_at hNd
          have he : e = e2 := Option.some.inj (hf.symm.trans hat)
          have hmem : (id, e2) ∈ st.tasks := by rw [hdec]; simp
          have hrun2 : e2.record.status = TaskStatus.running :=
            ((hOk _ hmem).2.1).mp hph
          rw [he, hrun2] at hpend
          exact absurd hpend (by decide)
        · rw [hdec] at hf
          rw [show findTask id (pre ++ (id2, finishCancel e2 t) :: post)
                = findTask id (pre ++ (id2, e2) :: post) from
              findTask_ne (finishCancel e2 t) e2 hid] at hfx
          have hex : ex = e := Option.some.inj (hf.symm.trans hfx).symm
          rw [hex, hpend] at hrun
          exact absurd hrun (by decide)
    | cancelWaiting pre post id2 e2 t hdec hph =>
        by_cases hid : id = id2
        · subst hid
          have hNd2 :
              ((pre ++ (id, finishCancel e2 t) :: post).map Prod.fst).Nodup := by
            rw [keys_update pre post id e2 (finishCancel e2 t), ← hdec]
            exact hNd
          have hat := findTask_at hNd2
          have hex : ex = finishCancel e2 t :=
            Option.some.inj (hfx.symm.trans hat)
          rw [hex] at hrun
          simp [finishCancel] at hrun
        · rw [hdec] at hf
          rw [show findTask id (pre ++ (id2, finishCancel e2 t) :: post)
                = findTask id (pre ++ (id2, e2) :: post) from
              findTask_ne (finishCancel e2 t) e2 hid] at hfx
          have hex : ex = e := Option.some.inj (hf.symm.trans hfx).symm
          rw [hex, hpend] at hrun
          exact absurd hrun (by decide)
    | sweep tnow window =>
        rcases findTask_filter _ st.tasks hNd hf with hnone | hsome
        · rw [hfx] at hnone
          exact absurd hnone (by simp)
        · have hex : ex = e := Option.some.inj (hfx.symm.trans hsome)
          rw [hex, hpend] at hrun
          exact absurd hrun (by decide)

/-- Witness for C2 on a concrete run with ceiling 3: the bound holds at the
state with one pending task, and the transition that makes task 0 RUNNING
certifies a free slot existed. -/
theorem c2_running_bounded_by_ceiling_witness :
    runningCount stA.tasks ≤ 3 ∧ runningCount stA.tasks < 3 := by
  have hrA : Reachable 3 stA :=
    Reachable.step Reachable.init (Step.create (initState 3) "job" 5)
  have h := c2_running_bounded_by_ceiling 3 stA hrA
  exact ⟨h.1,
    h.2 stB (Step.acquire stA [] [] 0 (newExec "job" 5) 6 rfl rfl (by decide))
      0 (newExec "job" 5) (startRun (newExec "job" 5) 6)
      (by decide) (by decide) (by decide) (by decide)⟩

/-- C3: when the unit of work of a RUNNING task raises, the service makes
an internal transition (the exception is absorbed by the except branch of
_execute_task, never surfacing to the caller of create_task): the task
record becomes FAILED with error_message = str(e) and completed_at set,
the failure is observable through get_task_status, and every other task
record is untouched. -/
theorem c3_work_exception_recorded_not_propagated
    (n : Nat) (st : RegistryState) (pre post : List (Nat × TaskExec))
    (id : Nat) (e : TaskExec) (t : Nat) (msg : String)
    (hr : Reachable n st) (hdec : st.tasks = pre ++ (id, e) :: post)
    (hph : e.phase = Phase.runningWork) :
    Step st { semAvail := st.semAvail + 1,
              tasks := pre ++ (id, finishFail e t msg) :: post,
              nextId := st.nextId } ∧
    getTaskStatus { semAvail := st.semAvail + 1,
                    tasks := pre ++ (id, finishFail e t msg) :: post,
                    nextId := st.nextId } id
      = some (finishFail e t msg).record ∧
    (finishFail e t msg).record.status = TaskStatus.failed ∧
    (finishFail e t msg).record.error_message = some msg ∧
    (finishFail e t msg).record.completed_at = some t ∧
    (∀ j, j ≠ id →
      findTask j (pre ++ (id, finishFail e t msg) :: post)
        = findTask j st.tasks) := by
  obtain ⟨hOk, hNd, hLt, hCnt⟩ := reachable_inv n st hr
  have hNd2 :
      ((pre ++ (id, finishFail e t msg) :: post).map Prod.fst).Nodup := by
    rw [keys_update pre post id e (finishFail e t msg), ← hdec]
    exact hNd
  refine ⟨Step.fail st pre post id e t msg hdec hph, ?_, rfl, rfl, rfl, ?_⟩
  · show (findTask id (pre ++ (id, finishFail e t msg) :: post)).map
        TaskExec.record = some (finishFail e t msg).record
    rw [findTask_at hNd2]
    rfl
  · intro j hj
    rw [hdec]
    exact findTask_ne (finishFail e t msg) e hj

/-- Witness for C3: the concrete running task of the ceiling-3 run fails
with text boom; the resulting state is stC and the failed record is
observable via get_task_status. -/
theorem c3_work_exception_recorded_not_propagated_witness :
    Step stB stC ∧
    getTaskStatus stC 0 = some execDone.record ∧
    execDone.record.status = TaskStatus.failed ∧
    execDone.record.error_message = some "boom" ∧
    execDone.record.completed_at = some 7 := by
  have hrB : Reachable 3 stB :=
    Reachable.step
      (Reachable.step Reachable.init (Step.create (initState 3) "job" 5))
      (Step.acquire stA [] [] 0 (newExec "job" 5) 6 rfl rfl (by decide))
  have h := c3_work_exception_recorded_not_propagated 3 stB [] [] 0
    (startRun (newExec "job" 5) 6) 7 "boom" hrB rfl rfl
  exact ⟨h.1, h.2.1, h.2.2.1, h.2.2.2.1, h.2.2.2.2.1⟩

/- ---------------------------------------------------------------
   Claim theorems for the per-file processor
   --------------------------------------------------------------- -/

/-- The error message of a per-file result is present exactly on failure. -/
theorem processSingleFile_error_iff_failure (maxMb now : Nat) (path : String)
    (f : FSFile) :
    (processSingleFile maxMb now path f).error_message.isSome
      = !(processSingleFile maxMb now path f).success := by
  unfold processSingleFile
  dsimp only
  repeat' split
  all_goals rfl

/-- C9 (amended): process never raises, it is a total function into
FileProcessingResult, and on every failure path the result has
success=false with error_message set; the message text is the fixed
non-empty string of the rejecting branch, except that a caught load/split
exception stores str(e), which can be the empty string. -/
theorem c9_failure_paths_return_result_with_message
    (maxMb now : Nat) (path : String) (f : FSFile)
    (h : (processSingleFile maxMb now path f).success = false) :
    ∃ msg, (processSingleFile maxMb now path f).error_message = some msg := by
  have he := processSingleFile_error_iff_failure maxMb now path f
  rw [h] at he
  simp only [Bool.not_false] at he
  exact Option.isSome_iff_exists.mp he

/-- Witness for C9 (amended) at the binary extension: the result fails and
carries a message. -/
theorem c9_failure_paths_return_result_with_message_witness :
    (processSingleFile 100 0 "b.png" fsPng).success = false ∧
    ∃ msg, (processSingleFile 100 0 "b.png" fsPng).error_message = some msg := by
  exact ⟨by decide,
    c9_failure_paths_return_result_with_message 100 0 "b.png" fsPng (by decide)⟩

/-- C9 counterexample to the claim as stated: when the splitter raises an
exception whose text is empty, the failure result's error_message is the
empty string, so the claim that every failure carries a non-empty
error_message is false at this input. -/
theorem c9_empty_exception_text_counterexample :
    (processSingleFile 100 0 "a.py" fsSplitRaisesEmpty).success = false ∧
    (processSingleFile 100 0 "a.py" fsSplitRaisesEmpty).error_message
      = some "" := by
  exact ⟨by decide, by decide⟩

/-- C10: for a text-like path whose size cannot be probed (OSError, e.g. a
missing file), the per-file result is the size-limit failure, and it is
indistinguishable from the result for an oversized file. -/
theorem c10_unprobeable_size_reported_as_size_limit
    (maxMb now : Nat) (path : String) (f : FSFile)
    (htext : is_text_file path = true) (hsize : f.size = none) :
    processSingleFile maxMb now path f
      = { file_path := path, success := false, documents := [],
          error_message := some (sizeLimitMsg maxMb) } ∧
    processSingleFile maxMb now path f
      = processSingleFile maxMb now path
          { f with size := some (maxMb * 1024 * 1024 + 1) } := by
  have hv1 : validate_file_size f.size maxMb = false := by
    rw [hsize]; rfl
  have hv2 : validate_file_size (some (maxMb * 1024 * 1024 + 1)) maxMb = false := by
    simp [validate_file_size]
  constructor
  · unfold processSingleFile
    rw [htext, hv1]
    rfl
  · unfold processSingleFile
    rw [htext, hv1, hv2]
    rfl

/-- Witness for C10 at a missing ghost.py with the default 100 MB limit. -/
theorem c10_unprobeable_size_reported_as_size_limit_witness :
    processSingleFile 100 0 "ghost.py" fsMissing
      = { file_path := "ghost.py", success := false, documents := [],
          error_message := some (sizeLimitMsg 100) } ∧
    processSingleFile 100 0 "ghost.py" fsMissing
      = processSingleFile 100 0 "ghost.py"
          { fsMissing with size := some (100 * 1024 * 1024 + 1) } := by
  exact c10_unprobeable_size_reported_as_size_limit 100 0 "ghost.py" fsMissing
    (by decide) (by decide)

/- ---------------------------------------------------------------
   Claim theorem for the batch runner
   --------------------------------------------------------------- -/

/-- Every chunk in the aggregation accumulator comes from the accumulator
seed or from a successful result. -/
theorem collectDocs_go_mem (rs : List FileProcessingResult) :
    ∀ (acc : List Document) (d : Document),
    d ∈ rs.foldl (fun acc r => if r.success then acc ++ r.documents else acc) acc →
    d ∈ acc ∨ ∃ r, r ∈ rs ∧ r.success = true ∧ d ∈ r.documents := by
  induction rs with
  | nil => intro acc d h; exact Or.inl h
  | cons r rs ih =>
      intro acc d h
      rw [List.foldl_cons] at h
      rcases ih _ d h with hacc | ⟨r2, hr2, hs, hd⟩
      · by_cases hrs : r.success
        · rw [if_pos hrs] at hacc
          rcases List.mem_append.mp hacc with h1 | h2
          · exact Or.inl h1
          · exact Or.inr ⟨r, List.mem_cons_self r rs, hrs, h2⟩
        · rw [if_neg hrs] at hacc
          exact Or.inl hacc
      · exact Or.inr ⟨r2, List.mem_cons_of_mem r hr2, hs, hd⟩

theorem collectDocs_mem {rs : List FileProcessingResult} {d : Document}
    (h : d ∈ collectDocs rs) :
    ∃ r, r ∈ rs ∧ r.success = true ∧ d ∈ r.documents := by
  rcases collectDocs_go_mem rs [] d h with hacc | hr
  · simp at hacc
  · exact hr

/-- C4: a batch whose per-file results contain exactly four successes and
one failure (e.g. four valid files and one unreadable one) yields a
succeeded tally of 4 and a failed tally of 1 in the returned outcome, and
every aggregated chunk comes from one of the successful files; the single
failure does not abort the batch. -/
theorem c4_batch_tolerates_single_failure
    (maxMb now elapsed : Nat) (storeOk : Bool)
    (files : List (String × FSFile))
    (h4 : succeededCount (batchResults maxMb now files) = 4)
    (h1 : failedCount (batchResults maxMb now files) = 1) :
    succeededCount (batchResults maxMb now files) = 4 ∧
    (process_files_concurrent maxMb now storeOk elapsed files).documents_failed = 1 ∧
    ∀ d ∈ collectDocs (batchResults maxMb now files),
      ∃ r, r ∈ batchResults maxMb now files ∧ r.success = true ∧
        d ∈ r.documents := by
  have hne : files.isEmpty = false := by
    cases files with
    | nil => simp [batchResults, succeededCount] at h4
    | cons a l => rfl
  refine ⟨h4, ?_, fun d hd => collectDocs_mem hd⟩
  unfold process_files_concurrent
  rw [hne]
  simpa using h1

/-- Witness for C4: four good Python files and one whose loader raises;
the failed tally is 1, the succeeded tally 4, and the sample chunk of the
aggregation is traced back to a successful file. -/
theorem c4_batch_tolerates_single_failure_witness :
    succeededCount (batchResults 100 0 c4Batch) = 4 ∧
    (process_files_concurrent 100 0 true 2 c4Batch).documents_failed = 1 ∧
    (∃ r, r ∈ batchResults 100 0 c4Batch ∧ r.success = true ∧
      addChunkMetadata "a.py" 0 { pageContent := "c1", metadata := [] }
        ∈ r.documents) := by
  have h := c4_batch_tolerates_single_failure 100 0 2 true c4Batch
    (by decide) (by decide)
  exact ⟨h.1, h.2.1,
    h.2.2 (addChunkMetadata "a.py" 0 { pageContent := "c1", metadata := [] })
      (by decide)⟩

/- ---------------------------------------------------------------
   Claim theorems for the upload byte-processing path
   --------------------------------------------------------------- -/

/-- C6 counterexample to the claim as stated: submitting a.py plus b.png
through process_uploaded_file_bytes yields skipped_files = 0, not a
skipped tally counting b.png; the non-text file is counted in
failed_files instead (the per-file result for b.png is a failure result,
and the stats hard-code skipped_files to 0). -/
theorem c6_png_not_counted_skipped_counterexample :
    process_uploaded_file_bytes 100 0 true 1 "./temp_files/upload_0"
      [itemA, itemB]
      = Except.ok { total_files := 2, processed_files := 2,
                    skipped_files := 0, failed_files := 1,
                    processing_time_seconds := 1 } ∧
    (process_uploaded_file_bytes 100 0 true 1 "./temp_files/upload_0"
        [itemA, itemB]).toOption.map FileProcessingStats.skipped_files
      = some 0 ∧
    (0 : Nat) ≠ 1 := by
  exact ⟨rfl, rfl, by decide⟩

/-- C6 (amended): submitting the batch a.py (valid text producing chunks
ds) and b.png (binary) yields stats with skipped_files = 0 and
failed_files = 1 — the b.png rejection is reported as a failure, not a
skip — while processed_files reflects exactly the chunks derived from
a.py. -/
theorem c6_png_counted_failed_processed_reflects_a_py
    (now elapsed : Nat) (storeOk : Bool)
    (fA fB : FSFile) (ds : List Document)
    (hA : processSingleFile 100 now "./temp_files/upload_0/a.py" fA
        = { file_path := "./temp_files/upload_0/a.py", success := true,
            documents := ds, error_message := none }) :
    process_uploaded_file_bytes 100 now storeOk elapsed "./temp_files/upload_0"
      [{ filename := "a.py", writeOk := true, file := fA },
       { filename := "b.png", writeOk := true, file := fB }]
      = Except.ok { total_files := 2, processed_files := ds.length,
                    skipped_files := 0, failed_files := 1,
                    processing_time_seconds := elapsed } := by
  have hB : processSingleFile 100 now "./temp_files/upload_0/b.png" fB
      = { file_path := "./temp_files/upload_0/b.png", success := false,
          documents := [], error_message := some "Not a text file" } := by
    unfold processSingleFile
    rw [(by decide : is_text_file "./temp_files/upload_0/b.png" = false)]
    rfl
  have hres : batchResults 100 now
      [("./temp_files/upload_0/a.py", fA), ("./temp_files/upload_0/b.png", fB)]
      = [{ file_path := "./temp_files/upload_0/a.py", success := true,
           documents := ds, error_message := none },
         { file_path := "./temp_files/upload_0/b.png", success := false,
           documents := [], error_message := some "Not a text file" }] := by
    simp [batchResults, hA, hB]
  have hdp : (process_files_concurrent 100 now storeOk elapsed
      [("./temp_files/upload_0/a.py", fA),
       ("./temp_files/upload_0/b.png", fB)]).documents_processed
      = ds.length := by
    unfold process_files_concurrent
    dsimp only
    rw [hres]
    simp [collectDocs]
  have hdf : (process_files_concurrent 100 now storeOk elapsed
      [("./temp_files/upload_0/a.py", fA),
       ("./temp_files/upload_0/b.png", fB)]).documents_failed
      = 1 := by
    unfold process_files_concurrent
    dsimp only
    rw [hres]
    simp [failedCount]
  have hdt : (process_files_concurrent 100 now storeOk elapsed
      [("./temp_files/upload_0/a.py", fA),
       ("./temp_files/upload_0/b.png", fB)]).processing_time
      = elapsed := rfl
  have hstep : process_uploaded_file_bytes 100 now storeOk elapsed
      "./temp_files/upload_0"
      [{ filename := "a.py", writeOk := true, file := fA },
       { filename := "b.png", writeOk := true, file := fB }]
      = Except.ok
        { total_files := 2,
          processed_files := (process_files_concurrent 100 now storeOk elapsed
            [("./temp_files/upload_0/a.py", fA),
             ("./temp_files/upload_0/b.png", fB)]).documents_processed,
          skipped_files := 0,
          failed_files := (process_files_concurrent 100 now storeOk elapsed
            [("./temp_files/upload_0/a.py", fA),
             ("./temp_files/upload_0/b.png", fB)]).documents_failed,
          processing_time_seconds := (process_files_concurrent 100 now storeOk elapsed
            [("./temp_files/upload_0/a.py", fA),
             ("./temp_files/upload_0/b.png", fB)]).processing_time } := rfl
  rw [hstep, hdp, hdf, hdt]

/-- Witness for C6 (amended): with the concrete a.py content splitting
into two chunks, processed_files is 2, skipped_files 0, failed_files 1. -/
theorem c6_png_counted_failed_processed_reflects_a_py_witness :
    process_uploaded_file_bytes 100 0 true 3 "./temp_files/upload_0"
      [itemA, itemB]
      = Except.ok { total_files := 2, processed_files := 2,
                    skipped_files := 0, failed_files := 1,
                    processing_time_seconds := 3 } := by
  have h := c6_png_counted_failed_processed_reflects_a_py 0 3 true fsPyOk fsPng
    (List.map (addChunkMetadata "./temp_files/upload_0/a.py" 0)
      [{ pageContent := "c1", metadata := [] },
       { pageContent := "c2", metadata := [] }])
    (by decide)
  exact h

/- ---------------------------------------------------------------
   Claim theorem for repository submission validation
   --------------------------------------------------------------- -/

/-- C5: a repository URL whose scheme is not accepted by the pydantic
HttpUrl field of RepoURL (anything but http/https, e.g. ftp) is rejected
synchronously by schema validation with a 422 before the handler runs: the
endpoint returns the error and the registry state — in particular its task
map — is unchanged, so no task record is created. -/
theorem c5_invalid_scheme_rejected_before_task_creation
    (st : RegistryState) (url : String) (t : Nat)
    (h : httpUrlSchemeOk url = false) :
    process_repo_endpoint st url t = (Except.error 422, st) ∧
    (process_repo_endpoint st url t).2.tasks = st.tasks := by
  constructor
  · unfold process_repo_endpoint
    rw [h]
    rfl
  · unfold process_repo_endpoint
    rw [h]
    rfl

/-- Witness for C5 at the ftp URL of the specification scenario, against a
fresh default service of ceiling 3. -/
theorem c5_invalid_scheme_rejected_before_task_creation_witness :
    process_repo_endpoint (initState 3) "ftp://example.com/repo.git" 0
      = (Except.error 422, initState 3) ∧
    (process_repo_endpoint (initState 3) "ftp://example.com/repo.git" 0).2.tasks
      = (initState 3).tasks := by
  exact c5_invalid_scheme_rejected_before_task_creation (initState 3)
    "ftp://example.com/repo.git" 0 (by decide)

/- ---------------------------------------------------------------
   Claim theorem for scratch-directory cleanup
   --------------------------------------------------------------- -/

/-- C8: both operations that own a scratch directory remove it on every
exit path.  The upload background worker, whenever a work directory was
handed to it, ends its filesystem trace with the removal of that
directory, for every outcome of its two collaborator calls; the repository
gate, on every run that gets past URL validation (the only runs that touch
the clone tree — and the clone action itself appears only there), ends its
trace with the removal of the clone tree, whether the clone or the
processing succeeded or failed. -/
theorem c8_scratch_dirs_removed_on_every_exit :
    (∀ (items : List (String × Nat)) (paths : List String) (d : String)
       (bytesCall pathsCall : CallOutcome Unit × List FsAction),
       ∃ pre, (bgWorker items paths (some d) bytesCall pathsCall).2
         = pre ++ [FsAction.removeDir d]) ∧
    (∀ (d : String) (v cloneOk : Bool)
       (processCall : CallOutcome FileProcessingStats),
       FsAction.cloneInto d ∈ (processRepositoryTrace d v cloneOk processCall).2 →
       ∃ pre, (processRepositoryTrace d v cloneOk processCall).2
         = pre ++ [FsAction.removeDir d]) := by
  constructor
  · intro items paths d bytesCall pathsCall
    exact ⟨_, rfl⟩
  · intro d v cloneOk processCall hmem
    cases v with
    | false => simp [processRepositoryTrace] at hmem
    | true => exact ⟨_, rfl⟩

/-- Witness for C8: a failing upload worker with a concrete work directory
still ends by removing it, and a repository run whose clone fails still
ends by removing the clone tree. -/
theorem c8_scratch_dirs_removed_on_every_exit_witness :
    (∃ pre, (bgWorker [("a.py", 3)] [] (some "./temp_files/upload_7")
        (CallOutcome.exn "boom", []) (CallOutcome.ok (), [])).2
      = pre ++ [FsAction.removeDir "./temp_files/upload_7"]) ∧
    (∃ pre, (processRepositoryTrace "./temp_repo" true false
        (CallOutcome.ok { total_files := 0, processed_files := 0,
                          skipped_files := 0, failed_files := 0,
                          processing_time_seconds := 0 })).2
      = pre ++ [FsAction.removeDir "./temp_repo"]) := by
  have h := c8_scratch_dirs_removed_on_every_exit
  exact ⟨h.1 [("a.py", 3)] [] "./temp_files/upload_7"
          (CallOutcome.exn "boom", []) (CallOutcome.ok (), []),
         h.2 "./temp_repo" true false
          (CallOutcome.ok { total_files := 0, processed_files := 0,
                            skipped_files := 0, failed_files := 0,
                            processing_time_seconds := 0 }) (by decide)⟩

/- ---------------------------------------------------------------
   Claim theorem for the upload routing loop
   --------------------------------------------------------------- -/

/-- Complete characterization of the routing loop from any loop state that
has not yet created a directory other than the submission directory. -/
theorem routeUploads_run (dirName : String) :
    ∀ (us : List UploadIn) (st : RouteState),
    (st.taskTempDir = none ∨ st.taskTempDir = some dirName) →
    (us.foldl (routeStep dirName) st).itemsInMemory
        = st.itemsInMemory ++ memOf us ∧
    (us.foldl (routeStep dirName) st).savedPaths
        = st.savedPaths ++ diskOf dirName us ∧
    (us.foldl (routeStep dirName) st).taskTempDir
        = (if st.taskTempDir.isSome || needsDisk us then some dirName
           else none) := by
  intro us
  induction us with
  | nil =>
      intro st hst
      rcases hst with h | h <;> simp [memOf, diskOf, needsDisk, h]
  | cons u us ih =>
      intro st hst
      rw [List.foldl_cons]
      by_cases hr : u.readOk = true
      case neg =>
        have hrb : u.readOk = false := by
          cases hu : u.readOk
          · rfl
          · exact absurd hu hr
        have hstep : routeStep dirName st u = st := by
          simp [routeStep, hrb]
        rw [hstep]
        obtain ⟨h1, h2, h3⟩ := ih st hst
        refine ⟨?_, ?_, ?_⟩
        · rw [h1]; simp [memOf, List.filterMap_cons, hrb]
        · rw [h2]; simp [diskOf, List.filterMap_cons, hrb]
        · rw [h3]; simp [needsDisk, List.any_cons, hrb]
      case pos =>
        by_cases hz : u.size = 0
        · have hstep : routeStep dirName st u = st := by
            simp [routeStep, hr, hz]
          rw [hstep]
          obtain ⟨h1, h2, h3⟩ := ih st hst
          refine ⟨?_, ?_, ?_⟩
          · rw [h1]; simp [memOf, List.filterMap_cons, hr, hz]
          · rw [h2]; simp [diskOf, List.filterMap_cons, hr, hz]
          · rw [h3]; simp [needsDisk, List.any_cons, hr, hz, IN_MEMORY_LIMIT_BYTES]
        · by_cases hle : u.size ≤ IN_MEMORY_LIMIT_BYTES
          · have hstep : routeStep dirName st u
                = { st with itemsInMemory :=
                      st.itemsInMemory ++ [(sanitName u, u.size)] } := by
              simp [routeStep, hr, hz, hle]
            rw [hstep]
            obtain ⟨h1, h2, h3⟩ :=
              ih { st with itemsInMemory :=
                     st.itemsInMemory ++ [(sanitName u, u.size)] } hst
            refine ⟨?_, ?_, ?_⟩
            · rw [h1]; simp [memOf, List.filterMap_cons, hr, hz, hle]
            · rw [h2]; simp [diskOf, List.filterMap_cons, hr, hz,
                Nat.not_lt.mpr hle]
            · rw [h3]; simp [needsDisk, List.any_cons, hr, Nat.not_lt.mpr hle]
          · have hlt : IN_MEMORY_LIMIT_BYTES < u.size := Nat.not_le.mp hle
            have hdir : st.taskTempDir.getD dirName = dirName := by
              rcases hst with h | h <;> simp [h]
            by_cases hw : u.writeOk = true
            · have hstep : routeStep dirName st u
                  = { taskTempDir := some dirName,
                      savedPaths :=
                        st.savedPaths ++ [dirName ++ "/" ++ sanitName u],
                      itemsInMemory := st.itemsInMemory } := by
                simp [routeStep, hr, hz, hle, hw, hdir]
              rw [hstep]
              obtain ⟨h1, h2, h3⟩ :=
                ih { taskTempDir := some dirName,
                     savedPaths :=
                       st.savedPaths ++ [dirName ++ "/" ++ sanitName u],
                     itemsInMemory := st.itemsInMemory } (Or.inr rfl)
              refine ⟨?_, ?_, ?_⟩
              · rw [h1]; simp [memOf, List.filterMap_cons, hr, hz,
                  Nat.not_le.mpr hlt]
              · rw [h2]; simp [diskOf, List.filterMap_cons, hr, hz, hlt, hw]
              · rw [h3]; simp [needsDisk, List.any_cons, hr, hlt]
            · have hwb : u.writeOk = false := by
                cases hu : u.writeOk
                · rfl
                · exact absurd hu hw
              have hstep : routeStep dirName st u
                  = { taskTempDir := some dirName,
                      savedPaths := st.savedPaths,
                      itemsInMemory := st.itemsInMemory } := by
                simp [routeStep, hr, hz, hle, hwb, hdir]
              rw [hstep]
              obtain ⟨h1, h2, h3⟩ :=
                ih { taskTempDir := some dirName,
                     savedPaths := st.savedPaths,
                     itemsInMemory := st.itemsInMemory } (Or.inr rfl)
              refine ⟨?_, ?_, ?_⟩
              · rw [h1]; simp [memOf, List.filterMap_cons, hr, hz,
                  Nat.not_le.mpr hlt]
              · rw [h2]; simp [diskOf, List.filterMap_cons, hr, hz, hlt, hwb]
              · rw [h3]; simp [needsDisk, List.any_cons, hr, hlt]


/-- C7: in the routing loop of process_uploaded_files, every readable
non-empty item at or below the 5 MiB threshold is retained in memory under
its sanitized name; every readable item above the threshold with a
successful write is stored on disk under the lazily created submission
scratch directory and its sanitized name; the scratch directory exists
after the loop exactly when some readable oversized item occurred
(created once, and every saved path lies under that single directory);
and conversely everything in memory came from a non-empty at-or-below
threshold item, so empty items are never retained. -/
theorem c7_upload_routing_memory_threshold_scratch_dir (dirName : String) (us : List UploadIn) :
    (∀ u ∈ us, u.readOk = true → 0 < u.size →
       u.size ≤ IN_MEMORY_LIMIT_BYTES →
       (sanitName u, u.size) ∈ (routeUploads dirName us).itemsInMemory) ∧
    (∀ u ∈ us, u.readOk = true → u.writeOk = true →
       IN_MEMORY_LIMIT_BYTES < u.size →
       (dirName ++ "/" ++ sanitName u) ∈ (routeUploads dirName us).savedPaths) ∧
    ((routeUploads dirName us).taskTempDir.isSome = needsDisk us) ∧
    (∀ p ∈ (routeUploads dirName us).savedPaths, ∃ u, u ∈ us ∧
       u.readOk = true ∧ u.writeOk = true ∧ IN_MEMORY_LIMIT_BYTES < u.size ∧
       p = dirName ++ "/" ++ sanitName u) ∧
    (∀ nm sz, (nm, sz) ∈ (routeUploads dirName us).itemsInMemory → ∃ u, u ∈ us ∧
       u.readOk = true ∧ 0 < sz ∧ sz ≤ IN_MEMORY_LIMIT_BYTES ∧ u.size = sz ∧
       nm = sanitName u) := by
  obtain ⟨h1, h2, h3⟩ := routeUploads_run dirName us
    { taskTempDir := none, savedPaths := [], itemsInMemory := [] } (Or.inl rfl)
  have e1 : (routeUploads dirName us).itemsInMemory = memOf us := by
    unfold routeUploads
    rw [h1]
    rfl
  have e2 : (routeUploads dirName us).savedPaths = diskOf dirName us := by
    unfold routeUploads
    rw [h2]
    rfl
  have e3 : (routeUploads dirName us).taskTempDir
      = (if needsDisk us then some dirName else none) := by
    unfold routeUploads
    rw [h3]
    simp
  refine ⟨?_, ?_, ?_, ?_, ?_⟩
  · intro u hu hr hpos hle
    rw [e1]
    have hne : ¬ u.size = 0 := by omega
    refine List.mem_filterMap.mpr ⟨u, hu, ?_⟩
    simp [hr, hne, hle]
  · intro u hu hr hw hlt
    rw [e2]
    refine List.mem_filterMap.mpr ⟨u, hu, ?_⟩
    simp [hr, hw, hlt]
  · rw [e3]
    cases hd : needsDisk us <;> simp [hd]
  · intro p hp
    rw [e2] at hp
    obtain ⟨u, hu, hfu⟩ := List.mem_filterMap.mp hp
    by_cases hc : (u.readOk && decide (IN_MEMORY_LIMIT_BYTES < u.size)
        && u.writeOk) = true
    · rw [if_pos hc] at hfu
      rw [Bool.and_eq_true] at hc
      obtain ⟨hc1, hw⟩ := hc
      rw [Bool.and_eq_true] at hc1
      obtain ⟨hr, hlt⟩ := hc1
      exact ⟨u, hu, hr, hw, of_decide_eq_true hlt,
        (Option.some.inj hfu).symm⟩
    · rw [if_neg hc] at hfu
      exact absurd hfu (by simp)
  · intro nm sz hmem
    rw [e1] at hmem
    obtain ⟨u, hu, hfu⟩ := List.mem_filterMap.mp hmem
    by_cases hc : (u.readOk && !(u.size == 0)
        && decide (u.size ≤ IN_MEMORY_LIMIT_BYTES)) = true
    · rw [if_pos hc] at hfu
      rw [Bool.and_eq_true] at hc
      obtain ⟨hc1, hle⟩ := hc
      rw [Bool.and_eq_true] at hc1
      obtain ⟨hr, hnz⟩ := hc1
      have hp2 := Option.some.inj hfu
      have hnm : sanitName u = nm := congrArg Prod.fst hp2
      have hsz : u.size = sz := congrArg Prod.snd hp2
      have hpos : 0 < sz := by
        have h0 : ¬ u.size = 0 := by simpa using hnz
        omega
      have hle2 : sz ≤ IN_MEMORY_LIMIT_BYTES := by
        have hx := of_decide_eq_true hle
        omega
      exact ⟨u, hu, hr, hpos, hle2, hsz, hnm.symm⟩
    · rw [if_neg hc] at hfu
      exact absurd hfu (by simp)


/-- Witness for C7: a 3 MiB payload lands in memory, a 7 MiB payload lands
under the submission scratch directory, and the directory was created. -/
theorem c7_upload_routing_memory_threshold_scratch_dir_witness :
    (sanitName uSmall, uSmall.size)
      ∈ (routeUploads "upload_dd" [uSmall, uEmpty, uBig]).itemsInMemory ∧
    ("upload_dd" ++ "/" ++ sanitName uBig)
      ∈ (routeUploads "upload_dd" [uSmall, uEmpty, uBig]).savedPaths ∧
    (routeUploads "upload_dd" [uSmall, uEmpty, uBig]).taskTempDir.isSome
      = needsDisk [uSmall, uEmpty, uBig] := by
  have h := c7_upload_routing_memory_threshold_scratch_dir "upload_dd"
    [uSmall, uEmpty, uBig]
  exact ⟨h.1 uSmall (by decide) (by decide) (by decide) (by decide),
         h.2.1 uBig (by decide) (by decide) (by decide) (by decide),
         h.2.2.1⟩
